import Mathlib

/-!
Shallow embedding of `accountingcalculatorbot.py`, the single source file of
the accounting-calculator-bot repository.

Python strings are modelled as `List Char`.  The pure functions
`get_math_result` and `make_calc_keyboard` are translated directly; each
update handler is modelled as a function from its inputs (the fields of the
update it reads) to the list of observable effects it produces: replies sent
back to the sender, messages sent to other chats, and log entries.
-/

/-- The code-point ranges of the Unicode general category Nd (decimal
digits, Unicode 14.0 as shipped with CPython 3.11), which is what `\d`
matches on a `str` pattern in Python 3. -/
def ndRanges : List (Nat × Nat) :=
  [(0x30, 0x39), (0x660, 0x669), (0x6F0, 0x6F9), (0x7C0, 0x7C9),
   (0x966, 0x96F), (0x9E6, 0x9EF), (0xA66, 0xA6F), (0xAE6, 0xAEF),
   (0xB66, 0xB6F), (0xBE6, 0xBEF), (0xC66, 0xC6F), (0xCE6, 0xCEF),
   (0xD66, 0xD6F), (0xDE6, 0xDEF), (0xE50, 0xE59), (0xED0, 0xED9),
   (0xF20, 0xF29), (0x1040, 0x1049), (0x1090, 0x1099), (0x17E0, 0x17E9),
   (0x1810, 0x1819), (0x1946, 0x194F), (0x19D0, 0x19D9), (0x1A80, 0x1A89),
   (0x1A90, 0x1A99), (0x1B50, 0x1B59), (0x1BB0, 0x1BB9), (0x1C40, 0x1C49),
   (0x1C50, 0x1C59), (0xA620, 0xA629), (0xA8D0, 0xA8D9), (0xA900, 0xA909),
   (0xA9D0, 0xA9D9), (0xA9F0, 0xA9F9), (0xAA50, 0xAA59), (0xABF0, 0xABF9),
   (0xFF10, 0xFF19), (0x104A0, 0x104A9), (0x10D30, 0x10D39),
   (0x11066, 0x1106F), (0x110F0, 0x110F9), (0x11136, 0x1113F),
   (0x111D0, 0x111D9), (0x112F0, 0x112F9), (0x11450, 0x11459),
   (0x114D0, 0x114D9), (0x11650, 0x11659), (0x116C0, 0x116C9),
   (0x11730, 0x11739), (0x118E0, 0x118E9), (0x11950, 0x11959),
   (0x11C50, 0x11C59), (0x11D50, 0x11D59), (0x11DA0, 0x11DA9),
   (0x16A60, 0x16A69), (0x16AC0, 0x16AC9), (0x16B50, 0x16B59),
   (0x1D7CE, 0x1D7FF), (0x1E140, 0x1E149), (0x1E2F0, 0x1E2F9),
   (0x1E950, 0x1E959), (0x1FBF0, 0x1FBF9)]

/-- Whether a character is a Unicode decimal digit (category Nd): the class
matched by `\d` in Python 3 on string patterns. -/
def isNd (c : Char) : Bool :=
  ndRanges.any (fun r => decide (r.1 ≤ c.toNat) && decide (c.toNat ≤ r.2))

/-- Characters matched by the character class `[\d\.]` of the regular
expression in `get_math_result` (line 32 of the source): Unicode decimal
digits and the decimal point. -/
def isNumChar (c : Char) : Bool := isNd c || c = '.'

/-- The maximal run of `[\d\.]` characters that terminates the list: the
greedy end-anchored match of `[\d\.]+` at a given anchor position. -/
def suffixRun (s : List Char) : List Char :=
  (s.reverse.takeWhile isNumChar).reverse

/-- Embedding of `get_math_result` (source lines 30-36):
`re.search(r'([\d\.]+)$', calc_history)` returning `match.group(1)` on a
match and `''` otherwise.  In Python (without `re.MULTILINE`) the anchor `$`
matches at the end of the string and also just before a newline that is the
last character of the string; a match of `[\d\.]+$` therefore ends at the
end of the string, or, when the string ends with `'\n'`, just before that
final newline.  The leftmost match found by `re.search` is the maximal run
of `[\d\.]` characters ending at the anchor, so the function returns the
maximal `[\d\.]` run terminating the string once a single trailing newline,
if present, is discounted. -/
def get_math_result (calc_history : List Char) : List Char :=
  if calc_history.getLast? = some '\n' then suffixRun calc_history.dropLast
  else suffixRun calc_history

/-- The constant `CALC_URL` (source line 22). -/
def CALC_URL : List Char := "https://accountingcalculator-37edb.web.app".data

/-- A keyboard button launching the web app: the `WebAppInfo` url and the
button caption built by `make_calc_keyboard`. -/
structure Keyboard where
  url : List Char
  caption : List Char
deriving DecidableEq, Repr

/-- Embedding of `make_calc_keyboard` (source lines 39-50).  The Python
truthiness test `if init_value:` on a string is the non-emptiness test. -/
def make_calc_keyboard (init_value : List Char) : Keyboard :=
  if init_value = [] then
    { url := CALC_URL, caption := "Call calculator".data }
  else
    { url := CALC_URL ++ ("?value=".data ++ init_value),
      caption := "Call calculator".data ++ (" with last value=".data ++ init_value) }

/-- A reply sent back to the sender: its text and attached keyboard. -/
structure Reply where
  text : List Char
  keyboard : Keyboard
deriving DecidableEq, Repr

/-- The observable effects of one handler invocation: replies to the sender,
messages sent to other chats (as chat id and text pairs), and log entries. -/
structure HandlerOut where
  replies : List Reply
  sends : List (List Char × List Char)
  logs : List (List Char)
deriving DecidableEq, Repr

/-- Embedding of Python `str.split('\n')`: splits at every newline and on the
empty string returns the one-element list holding the empty string. -/
def splitNl : List Char → List (List Char)
  | [] => [[]]
  | c :: rest =>
    match splitNl rest with
    | [] => [[]]
    | h :: t => if c = '\n' then [] :: h :: t else (c :: h) :: t

/-- Embedding of Python `'\n'.join(pieces)`. -/
def joinNl : List (List Char) → List Char
  | [] => []
  | [x] => x
  | x :: y :: t => x ++ '\n' :: joinNl (y :: t)

/-- The line-reversal transform of source line 119:
`'\n'.join(calc_history.split('\n')[::-1])`. -/
def reverse_lines (s : List Char) : List Char :=
  joinNl (splitNl s).reverse

/-- Embedding of the handler `web_app_data` (source lines 114-122): reverse
the line order of the received data, extract the last value from the
reversed text, and reply with the reversed text plus a keyboard seeded with
that value; one log entry mentioning the user is written. -/
def web_app_data (user data : List Char) : HandlerOut :=
  let calc_history := reverse_lines data
  let last_value := get_math_result calc_history
  { replies := [{ text := calc_history, keyboard := make_calc_keyboard last_value }],
    sends := [],
    logs := ["Web_app_data - ".data ++ user] }

/-- Embedding of the handler `feedback_cmd` (source lines 93-101): reply to
the sender with an acknowledgment and the plain keyboard, then send one
message to the admin chat containing the sender's mention, the sender's chat
id and the full message text. -/
def feedback_cmd (admin_chat_id user_mention user_id msg_text : List Char) : HandlerOut :=
  { replies := [{ text := user_mention ++ ", thank you\n".data,
                  keyboard := make_calc_keyboard [] }],
    sends := [(admin_chat_id,
      "Feedback from ".data ++ user_mention ++ ", chat_id:".data ++ user_id
        ++ ":\n".data ++ msg_text)],
    logs := [] }

/-- Embedding of the handler `connected_website` (source lines 125-128): no
reply, no send, one log entry mentioning the user. -/
def connected_website (user : List Char) : HandlerOut :=
  { replies := [], sends := [], logs := ["Connected_website - ".data ++ user] }

/-- Decidable check that the first list is an initial segment of the
second. -/
def hasPre : List Char → List Char → Bool
  | [], _ => true
  | _ :: _, [] => false
  | p :: ps, c :: cs => p = c && hasPre ps cs

/-- Decidable check that the first list occurs as a contiguous segment of
the second; used to state the claims that speak of a text containing a
value. -/
def hasSub (pat : List Char) : List Char → Bool
  | [] => hasPre pat []
  | c :: t => hasPre pat (c :: t) || hasSub pat t

/-- Whether the list is non-empty and its last character is in the `[\d\.]`
class. -/
def lastCharNum (s : List Char) : Bool :=
  match s.getLast? with
  | some c => isNumChar c
  | none => false

/-- Whether no `[\d\.]` character stands at the regex end anchor of `s`:
at the end of `s` or, when `s` ends with one newline, just before that
newline.  This is the condition under which `get_math_result` finds no
match. -/
def noAnchorNum (s : List Char) : Bool :=
  if s.getLast? = some '\n' then !(lastCharNum s.dropLast) else !(lastCharNum s)

theorem hasPre_append_self (p b : List Char) : hasPre p (p ++ b) = true := by
  induction p with
  | nil => rfl
  | cons c ps ih => simp [hasPre, ih]

theorem hasSub_append_middle (a p b : List Char) : hasSub p (a ++ (p ++ b)) = true := by
  induction a with
  | nil =>
    rw [List.nil_append]
    cases hpb : p ++ b with
    | nil =>
      have hp : p = [] := (List.append_eq_nil.mp hpb).1
      rw [hp]
      rfl
    | cons c t =>
      rw [hasSub, ← hpb, hasPre_append_self p b]
      rfl
  | cons c as ih =>
    rw [List.cons_append, hasSub, ih]
    simp

theorem takeWhileRev_eq_nil {s : List Char} (h : lastCharNum s = false) :
    s.reverse.takeWhile isNumChar = [] := by
  cases hr : s.reverse with
  | nil => rfl
  | cons c cs =>
    have hc : s.getLast? = some c := by rw [← List.head?_reverse, hr]; rfl
    have hnc : isNumChar c = false := by
      unfold lastCharNum at h
      rw [hc] at h
      exact h
    simp [List.takeWhile_cons, hnc]

theorem suffixRun_eq_nil {s : List Char} (h : lastCharNum s = false) :
    suffixRun s = [] := by
  unfold suffixRun
  rw [takeWhileRev_eq_nil h]
  rfl

theorem suffixRun_append_run {s t : List Char} (ht : t.all isNumChar = true)
    (hs : lastCharNum s = false) : suffixRun (s ++ t) = t := by
  unfold suffixRun
  rw [List.reverse_append, List.takeWhile_append_of_pos]
  · rw [takeWhileRev_eq_nil hs, List.append_nil, List.reverse_reverse]
  · intro a ha
    exact (List.all_eq_true.mp ht) a (List.mem_reverse.mp ha)

theorem get_math_result_append_run {s t : List Char} (ht1 : t ≠ [])
    (ht2 : t.all isNumChar = true) (hs : lastCharNum s = false) :
    get_math_result (s ++ t) = t := by
  have hc : t.getLast? = some (t.getLast ht1) := List.getLast?_eq_getLast t ht1
  have hnum : isNumChar (t.getLast ht1) = true :=
    (List.all_eq_true.mp ht2) _ (List.getLast_mem ht1)
  have hne : (s ++ t).getLast? ≠ some '\n' := by
    rw [List.getLast?_append, hc]
    simp only [Option.or_some]
    intro hh
    have heq : t.getLast ht1 = '\n' := by injection hh
    rw [heq] at hnum
    exact absurd hnum (by decide)
  unfold get_math_result
  rw [if_neg hne]
  exact suffixRun_append_run ht2 hs

theorem splitNl_ne_nil (s : List Char) : splitNl s ≠ [] := by
  induction s with
  | nil => simp [splitNl]
  | cons c rest ih =>
    rw [splitNl]
    cases hsr : splitNl rest with
    | nil => exact absurd hsr ih
    | cons h t => by_cases hc : c = '\n' <;> simp [hc]

theorem splitNl_not_mem_nl (s : List Char) : ∀ p ∈ splitNl s, '\n' ∉ p := by
  induction s with
  | nil =>
    intro p hp
    simp [splitNl] at hp
    simp [hp]
  | cons c rest ih =>
    intro p hp
    cases hsr : splitNl rest with
    | nil => exact absurd hsr (splitNl_ne_nil rest)
    | cons h t =>
      have heq : splitNl (c :: rest) = if c = '\n' then [] :: h :: t else (c :: h) :: t := by
        rw [splitNl, hsr]
      rw [heq] at hp
      rw [hsr] at ih
      by_cases hc : c = '\n'
      · rw [if_pos hc] at hp
        rcases List.mem_cons.mp hp with h1 | h2
        · simp [h1]
        · exact ih p h2
      · rw [if_neg hc] at hp
        rcases List.mem_cons.mp hp with h1 | h2
        · subst h1
          intro hmem
          rcases List.mem_cons.mp hmem with h3 | h4
          · exact hc h3.symm
          · exact ih h (List.mem_cons_self h t) h4
        · exact ih p (List.mem_cons_of_mem h h2)

theorem joinNl_splitNl (s : List Char) : joinNl (splitNl s) = s := by
  induction s with
  | nil => rfl
  | cons c rest ih =>
    cases hsr : splitNl rest with
    | nil => exact absurd hsr (splitNl_ne_nil rest)
    | cons h t =>
      have heq : splitNl (c :: rest) = if c = '\n' then [] :: h :: t else (c :: h) :: t := by
        rw [splitNl, hsr]
      rw [heq]
      rw [hsr] at ih
      by_cases hc : c = '\n'
      · subst hc
        rw [if_pos rfl, joinNl, ih]
        rfl
      · rw [if_neg hc]
        cases t with
        | nil =>
          rw [joinNl]
          rw [joinNl] at ih
          rw [ih]
        | cons y t2 =>
          rw [joinNl]
          rw [joinNl] at ih
          rw [List.cons_append, ih]

theorem splitNl_eq_single {x : List Char} (h : '\n' ∉ x) : splitNl x = [x] := by
  induction x with
  | nil => rfl
  | cons c x2 ih =>
    have hc : ¬ (c = '\n') := by
      intro hh
      subst hh
      exact h (List.mem_cons_self _ _)
    rw [splitNl, ih (fun hm => h (List.mem_cons_of_mem c hm))]
    simp [hc]

theorem splitNl_append_nl_cons {x r : List Char} (h : '\n' ∉ x) :
    splitNl (x ++ '\n' :: r) = x :: splitNl r := by
  induction x with
  | nil =>
    rw [List.nil_append, splitNl]
    cases hsr : splitNl r with
    | nil => exact absurd hsr (splitNl_ne_nil r)
    | cons a b => simp
  | cons c x2 ih =>
    have hc : ¬ (c = '\n') := by
      intro hh
      subst hh
      exact h (List.mem_cons_self _ _)
    rw [List.cons_append, splitNl, ih (fun hm => h (List.mem_cons_of_mem c hm))]
    simp [hc]

theorem splitNl_joinNl {l : List (List Char)} (hne : l ≠ [])
    (hcl : ∀ p ∈ l, '\n' ∉ p) : splitNl (joinNl l) = l := by
  induction l with
  | nil => exact absurd rfl hne
  | cons x l2 ih =>
    cases l2 with
    | nil =>
      rw [joinNl]
      exact splitNl_eq_single (hcl x (List.mem_cons_self _ _))
    | cons y t =>
      rw [joinNl, splitNl_append_nl_cons (hcl x (List.mem_cons_self _ _)),
        ih (by simp) (fun p hp => hcl p (List.mem_cons_of_mem x hp))]

/-- C1 counterexample: on the payload `"1+1=2\n2+2=4"` the handler does
reverse the lines to `"2+2=4\n1+1=2"`, but `get_math_result` applied to that
reversed text returns `"2"` (the last `[\d\.]` run of the reversed string),
not `"4"`, and the launch link URL does not contain `value=4`. -/
theorem C1_counterexample :
    reverse_lines ("1+1=2\n2+2=4".data) = "2+2=4\n1+1=2".data ∧
    get_math_result ("2+2=4\n1+1=2".data) ≠ "4".data ∧
    (web_app_data [] ("1+1=2\n2+2=4".data)).replies.map
      (fun r : Reply => hasSub ("value=4".data) r.keyboard.url) = [false] := by
  decide

/-- C1 (amended): for the web-app payload `"1+1=2\n2+2=4"`, the handler
reverses it to `"2+2=4\n1+1=2"`, the Result Extractor applied to that
reversed text returns `"2"`, and the reply's launch link URL contains the
query parameter `value=2`. -/
theorem C1_amended_scenario :
    reverse_lines ("1+1=2\n2+2=4".data) = "2+2=4\n1+1=2".data ∧
    get_math_result ("2+2=4\n1+1=2".data) = "2".data ∧
    (web_app_data [] ("1+1=2\n2+2=4".data)).replies.map
      (fun r : Reply => hasSub ("value=2".data) r.keyboard.url) = [true] := by
  decide

/-- C2: for every history string whose final token is a decimal numeral -- a
non-empty run of `[\d\.]` characters terminating the string, preceded by
nothing or by a character outside that class -- `get_math_result` returns
exactly that token, including any trailing decimal point. -/
theorem C2_trailing_numeral_extracted (s t : List Char) (ht1 : t ≠ [])
    (ht2 : t.all isNumChar = true) (hs : lastCharNum s = false) :
    get_math_result (s ++ t) = t :=
  get_math_result_append_run ht1 ht2 hs

/-- C2 witness: the history `"x=4."` ends in the numeral token `"4."`, and
`get_math_result` returns it, trailing decimal point included. -/
theorem C2_witness :
    (['4', '.'] : List Char) ≠ [] ∧ (['4', '.'] : List Char).all isNumChar = true ∧
    lastCharNum ['x', '='] = false ∧
    get_math_result (['x', '='] ++ ['4', '.']) = ['4', '.'] :=
  ⟨by decide, by decide, by decide,
    C2_trailing_numeral_extracted ['x', '='] ['4', '.'] (by decide) (by decide) (by decide)⟩

/-- C3: for a present (non-empty) resume value `v`, `make_calc_keyboard`
produces a URL that is the base URL followed by `?value=` and `v`, and a
caption containing `v`; for the absent (empty) value, the URL is the base
URL unmodified and the caption is the fixed text `"Call calculator"`. -/
theorem C3_launch_link_build (v : List Char) (hv : v ≠ []) :
    (make_calc_keyboard v).url = CALC_URL ++ ("?value=".data ++ v) ∧
    hasSub v (make_calc_keyboard v).caption = true ∧
    (make_calc_keyboard []).url = CALC_URL ∧
    (make_calc_keyboard []).caption = "Call calculator".data := by
  refine ⟨?_, ?_, rfl, rfl⟩
  · simp [make_calc_keyboard, hv]
  · simp only [make_calc_keyboard, if_neg hv]
    have h := hasSub_append_middle ("Call calculator".data ++ " with last value=".data) v []
    simpa [List.append_assoc] using h

/-- C3 witness: the resume value `"4"` yields the URL with `?value=4`
appended and a caption containing `4`; the empty value yields the bare base
URL and fixed caption. -/
theorem C3_witness :
    (['4'] : List Char) ≠ [] ∧
    ((make_calc_keyboard ['4']).url = CALC_URL ++ ("?value=".data ++ ['4']) ∧
     hasSub ['4'] (make_calc_keyboard ['4']).caption = true ∧
     (make_calc_keyboard []).url = CALC_URL ∧
     (make_calc_keyboard []).caption = "Call calculator".data) :=
  ⟨by decide, C3_launch_link_build ['4'] (by decide)⟩

/-- C4: for every web-app payload, the handler sends exactly one reply whose
body is the payload with its newline-separated lines in reverse order (the
body splits at newlines into exactly the reversed list of the payload's
lines) and whose launch link is seeded with the value that `get_math_result`
extracts from that reversed text. -/
theorem C4_web_app_reply (user data : List Char) :
    (web_app_data user data).replies =
      [{ text := reverse_lines data,
         keyboard := make_calc_keyboard (get_math_result (reverse_lines data)) }] ∧
    splitNl (reverse_lines data) = (splitNl data).reverse := by
  constructor
  · rfl
  · unfold reverse_lines
    exact splitNl_joinNl (by simpa using splitNl_ne_nil data)
      (fun p hp => splitNl_not_mem_nl data p (List.mem_reverse.mp hp))

/-- C5 counterexample: the history `"12\n"` has no `[\d\.]` run terminating
the string (its last character is a newline, not a numeral character), yet
`get_math_result` returns `"12"` rather than the empty value, because the
regex anchor `$` also matches just before a single trailing newline. -/
theorem C5_counterexample :
    lastCharNum ['1', '2', '\n'] = false ∧
    get_math_result ['1', '2', '\n'] = ['1', '2'] := by
  decide

/-- C5 (amended): `get_math_result` returns the empty value on every history
string with no numeral character at the regex end anchor -- that is, whose
last character is absent or outside `[\d\.]` and, when that last character
is a single trailing newline, whose character before the newline is also
absent or outside `[\d\.]`.  The function is total, so this outcome is an
ordinary result, never a failure. -/
theorem C5_amended_no_anchor_numeral (s : List Char) (h : noAnchorNum s = true) :
    get_math_result s = [] := by
  unfold noAnchorNum at h
  unfold get_math_result
  by_cases hl : s.getLast? = some '\n'
  · rw [if_pos hl] at h ⊢
    exact suffixRun_eq_nil (by simpa using h)
  · rw [if_neg hl] at h ⊢
    exact suffixRun_eq_nil (by simpa using h)

/-- C5 witness: the history `"12 "` has no numeral at the end anchor and the
extractor returns the empty value. -/
theorem C5_witness :
    noAnchorNum ['1', '2', ' '] = true ∧ get_math_result ['1', '2', ' '] = [] :=
  ⟨by decide, C5_amended_no_anchor_numeral ['1', '2', ' '] (by decide)⟩

/-- C6: for every feedback command with trailing text, the handler emits
exactly two outbound sends: one acknowledgment reply to the sender (its text
holds the sender's mention, with the plain keyboard attached) and one
message to the fixed administrative chat; the admin message contains the
sender's identity, the full command text, and hence the trailing feedback
text verbatim. -/
theorem C6_feedback_effects (admin u uid ft : List Char) :
    ∃ m : List Char,
      (feedback_cmd admin u uid ("/feedback ".data ++ ft)).replies =
        [{ text := u ++ ", thank you\n".data, keyboard := make_calc_keyboard [] }] ∧
      (feedback_cmd admin u uid ("/feedback ".data ++ ft)).sends = [(admin, m)] ∧
      hasSub u m = true ∧
      hasSub ("/feedback ".data ++ ft) m = true ∧
      hasSub ft m = true := by
  refine ⟨"Feedback from ".data ++ u ++ ", chat_id:".data ++ uid ++ ":\n".data
    ++ ("/feedback ".data ++ ft), rfl, rfl, ?_, ?_, ?_⟩
  · have h := hasSub_append_middle ("Feedback from ".data) u
      (", chat_id:".data ++ uid ++ ":\n".data ++ ("/feedback ".data ++ ft))
    simpa [List.append_assoc] using h
  · have h := hasSub_append_middle
      ("Feedback from ".data ++ u ++ ", chat_id:".data ++ uid ++ ":\n".data)
      ("/feedback ".data ++ ft) []
    simpa [List.append_assoc] using h
  · have h := hasSub_append_middle
      ("Feedback from ".data ++ u ++ ", chat_id:".data ++ uid ++ ":\n".data
        ++ "/feedback ".data) ft []
    simpa [List.append_assoc] using h

/-- C7: for every web-app-session-opened event, the handler sends no reply
and no message and writes exactly one log entry, which mentions the user. -/
theorem C7_connected_website_effects (user : List Char) :
    (connected_website user).replies = [] ∧ (connected_website user).sends = [] ∧
    (connected_website user).logs = ["Connected_website - ".data ++ user] :=
  ⟨rfl, rfl, rfl⟩

/-- C8 counterexample: on the history `"x٥4"` (with the Arabic-Indic digit
five, U+0665, which Python's `\d` matches), `get_math_result` returns
`"٥4"`, whose first character is outside `[0-9.]` -- it is neither an ASCII
digit nor a decimal point -- and a non-ASCII character in the `value=`
query parameter does require URL encoding. -/
theorem C8_counterexample :
    get_math_result ['x', '٥', '4'] = ['٥', '4'] ∧
    (get_math_result ['x', '٥', '4']).all (fun c => c.isDigit || c = '.') = false := by
  decide

/-- C8 (amended): for every input string, every character of the value
returned by `get_math_result` belongs to the regex class `[\d\.]` -- it is
a Unicode decimal digit or a decimal point.  Only when the value is ASCII
(the usual case, since the calculator emits ASCII numerals) does embedding
it unescaped in the `value=` query parameter need no URL encoding. -/
theorem C8_result_chars_in_class (s : List Char) :
    (get_math_result s).all isNumChar = true := by
  have key : ∀ u : List Char, (suffixRun u).all isNumChar = true := by
    intro u
    rw [List.all_eq_true]
    intro x hx
    exact List.mem_takeWhile_imp (List.mem_reverse.mp hx)
  unfold get_math_result
  split
  · exact key _
  · exact key _

/-- C9: for every string ending in a numeral token `t`, `get_math_result`
returns `t` both when nothing follows `t` and when exactly one newline
follows `t`; and any string whose last character is outside `[\d\.]` and not
a newline, or which ends in two newlines, yields the empty value. -/
theorem C9_end_anchor_newline_tolerance (s t u : List Char) (c : Char)
    (ht1 : t ≠ []) (ht2 : t.all isNumChar = true) (hs : lastCharNum s = false)
    (hc1 : isNumChar c = false) (hc2 : c ≠ '\n') :
    get_math_result (s ++ t) = t ∧
    get_math_result ((s ++ t) ++ ['\n']) = t ∧
    get_math_result (u ++ [c]) = [] ∧
    get_math_result ((u ++ ['\n']) ++ ['\n']) = [] := by
  refine ⟨get_math_result_append_run ht1 ht2 hs, ?_, ?_, ?_⟩
  · unfold get_math_result
    rw [List.getLast?_concat, if_pos rfl, List.dropLast_concat]
    exact suffixRun_append_run ht2 hs
  · unfold get_math_result
    rw [List.getLast?_concat, if_neg (by simpa using hc2)]
    refine suffixRun_eq_nil ?_
    unfold lastCharNum
    rw [List.getLast?_concat]
    exact hc1
  · unfold get_math_result
    rw [List.getLast?_concat, if_pos rfl, List.dropLast_concat]
    refine suffixRun_eq_nil ?_
    unfold lastCharNum
    rw [List.getLast?_concat]
    decide

/-- C9 witness: `" 4"` and `" 4\n"` both yield `"4"`, while `"7 "` and
`"7\n\n"` yield the empty value. -/
theorem C9_witness :
    (['4'] : List Char) ≠ [] ∧ (['4'] : List Char).all isNumChar = true ∧
    lastCharNum [' '] = false ∧ isNumChar ' ' = false ∧ (' ' : Char) ≠ '\n' ∧
    (get_math_result ([' '] ++ ['4']) = ['4'] ∧
     get_math_result (([' '] ++ ['4']) ++ ['\n']) = ['4'] ∧
     get_math_result (['7'] ++ [' ']) = [] ∧
     get_math_result ((['7'] ++ ['\n']) ++ ['\n']) = []) :=
  ⟨by decide, by decide, by decide, by decide, by decide,
    C9_end_anchor_newline_tolerance [' '] ['4'] ['7'] ' '
      (by decide) (by decide) (by decide) (by decide) (by decide)⟩

/-- C10: the line-reversal transform of the web-app-data handler,
`'\n'.join(s.split('\n')[::-1])`, is an involution: applying it twice to any
string returns the original string. -/
theorem C10_reverse_lines_involutive (s : List Char) :
    reverse_lines (reverse_lines s) = s := by
  unfold reverse_lines
  have h1 : splitNl (joinNl (splitNl s).reverse) = (splitNl s).reverse :=
    splitNl_joinNl (by simpa using splitNl_ne_nil s)
      (fun p hp => splitNl_not_mem_nl s p (List.mem_reverse.mp hp))
  rw [h1, List.reverse_reverse, joinNl_splitNl]
